import Mathlib

/-!
Verification of the comp-ranking / price-estimation engine of
`api/v1/analyze.ts` (secondhand-handbag deal analyzer).

Shallow embedding conventions:
* JavaScript numbers are modelled as exact rationals (`ℚ`); `Math.log` uses
  `Real.log`, so the one score component that calls it is `noncomputable`.
  Every other definition is executable.
* JavaScript strings are Lean `String`s (lists of characters).  The
  `toLowerCase` / NFD-accent-strip steps of `normalize` are modelled by
  explicit character tables covering the Latin-1 letters (all other
  characters fall through unchanged and are then turned into spaces by the
  punctuation filter, exactly as in the source).
* Regular-expression constructs that the source applies to already
  normalized text are modelled by their exact semantics on such text
  (word-boundary matching of a literal, leftmost match first).
-/

set_option maxRecDepth 100000

namespace AnalyzeV1

/-- JS `\s` character class, restricted to the ASCII whitespace actually
reachable in this code base. -/
def isJsSpace (c : Char) : Bool :=
  c = ' ' || c = '\t' || c = '\n' || c = '\r' || c = '\x0b' || c = '\x0c'

/-- JS regex `\w` (ASCII word character). -/
def isWordChar (c : Char) : Bool :=
  ('a' ≤ c && c ≤ 'z') || ('A' ≤ c && c ≤ 'Z') || ('0' ≤ c && c ≤ '9') || c = '_'

/-- `String.prototype.toLowerCase`, restricted to ASCII letters and the
Latin-1 uppercase letters (the only cased characters reachable here). -/
def lowerPairs : List (Char × Char) :=
  [('A', 'a'), ('B', 'b'), ('C', 'c'), ('D', 'd'), ('E', 'e'), ('F', 'f'),
   ('G', 'g'), ('H', 'h'), ('I', 'i'), ('J', 'j'), ('K', 'k'), ('L', 'l'),
   ('M', 'm'), ('N', 'n'), ('O', 'o'), ('P', 'p'), ('Q', 'q'), ('R', 'r'),
   ('S', 's'), ('T', 't'), ('U', 'u'), ('V', 'v'), ('W', 'w'), ('X', 'x'),
   ('Y', 'y'), ('Z', 'z'),
   ('À', 'à'), ('Á', 'á'), ('Â', 'â'), ('Ã', 'ã'), ('Ä', 'ä'), ('Å', 'å'),
   ('Æ', 'æ'), ('Ç', 'ç'), ('È', 'è'), ('É', 'é'), ('Ê', 'ê'), ('Ë', 'ë'),
   ('Ì', 'ì'), ('Í', 'í'), ('Î', 'î'), ('Ï', 'ï'), ('Ð', 'ð'), ('Ñ', 'ñ'),
   ('Ò', 'ò'), ('Ó', 'ó'), ('Ô', 'ô'), ('Õ', 'õ'), ('Ö', 'ö'), ('Ø', 'ø'),
   ('Ù', 'ù'), ('Ú', 'ú'), ('Û', 'û'), ('Ü', 'ü'), ('Ý', 'ý'), ('Þ', 'þ')]

def jsToLowerChar (c : Char) : Char :=
  match lowerPairs.find? (fun p => p.1 = c) with
  | some p => p.2
  | none => c

def jsToLowerString (s : String) : String :=
  String.mk (s.data.map jsToLowerChar)

/-- NFD decomposition followed by removal of the combining marks
U+0300–U+036F, modelled as a character table for the precomposed Latin-1
letters (a composed letter decomposes to base + mark, and the mark is then
stripped, so the net effect is composed ↦ base). -/
def accentPairs : List (Char × Char) :=
  [('à', 'a'), ('á', 'a'), ('â', 'a'), ('ã', 'a'), ('ä', 'a'), ('å', 'a'),
   ('ç', 'c'), ('è', 'e'), ('é', 'e'), ('ê', 'e'), ('ë', 'e'),
   ('ì', 'i'), ('í', 'i'), ('î', 'i'), ('ï', 'i'), ('ñ', 'n'),
   ('ò', 'o'), ('ó', 'o'), ('ô', 'o'), ('õ', 'o'), ('ö', 'o'),
   ('ù', 'u'), ('ú', 'u'), ('û', 'u'), ('ü', 'u'), ('ý', 'y'), ('ÿ', 'y')]

def isCombiningMark (c : Char) : Bool :=
  0x300 ≤ c.toNat && c.toNat ≤ 0x36F

def accentFold (c : Char) : List Char :=
  if isCombiningMark c then []
  else
    match accentPairs.find? (fun p => p.1 = c) with
    | some p => [p.2]
    | none => [c]

/-- `.replace(/[^\w\s-]/g, " ")`: any character that is not a word
character, whitespace or a hyphen becomes a space. -/
def punctToSpace (c : Char) : Char :=
  if isWordChar c || isJsSpace c || c = '-' then c else ' '

/-- One step of splitting into words: whitespace opens a new (possibly
empty) segment, any other character extends the current head segment. -/
def wordsStep (c : Char) (acc : List (List Char)) : List (List Char) :=
  if isJsSpace c then [] :: acc
  else (c :: acc.headD []) :: acc.tail

/-- Split a character list into its maximal whitespace-free words. -/
def wordsOf (l : List Char) : List (List Char) :=
  (l.foldr wordsStep []).filter (fun w => w ≠ [])

/-- Join words with single spaces; `wordsOf` then `joinWords` is exactly
`.replace(/\s+/g, " ").trim()`. -/
def joinWords : List (List Char) → List Char
  | [] => []
  | [w] => w
  | w :: ws => w ++ ' ' :: joinWords ws

def normalizeList (l : List Char) : List Char :=
  joinWords (wordsOf (((l.map jsToLowerChar).flatMap accentFold).map punctToSpace))

/-- `normalize` from the source: lower-case, strip accents (NFD + mark
removal), punctuation to space, collapse whitespace, trim. -/
def normalize (s : String) : String :=
  String.mk (normalizeList s.data)

/-- The literal `p` occurs at index `i` of `t`. -/
def matchLiteralAt (t p : List Char) (i : ℕ) : Bool :=
  (t.drop i).take p.length = p

/-- JS `haystack.includes(needle)`. -/
def jsIncludes (s sub : String) : Bool :=
  (List.range (s.data.length + 1)).any (fun i => matchLiteralAt s.data sub.data i)

/-- JS `s.split(" ")`: split on every single space, keeping empty pieces. -/
def splitOnSpaceChars : List Char → List (List Char)
  | [] => [[]]
  | c :: cs =>
    let rest := splitOnSpaceChars cs
    if c = ' ' then [] :: rest
    else
      match rest with
      | [] => [[c]]
      | w :: ws => (c :: w) :: ws

def jsSplitSpace (s : String) : List String :=
  (splitOnSpaceChars s.data).map String.mk

/-- JS `s.trim()` (whitespace from both ends). -/
def jsTrim (s : String) : String :=
  String.mk (((s.data.dropWhile (fun c => isJsSpace c)).reverse.dropWhile
    (fun c => isJsSpace c)).reverse)

/-- JS `s.slice(0, n)`. -/
def jsSlice (s : String) (n : ℕ) : String :=
  String.mk (s.data.take n)

/-- Is the character at index `i` (if any) a word character? -/
def wordAt (t : List Char) (i : ℕ) : Bool :=
  match t.get? i with
  | some c => isWordChar c
  | none => false

/-- Regex `\b` holds before index `i`: the word-character status changes
between index `i - 1` (virtual non-word outside the string) and index `i`. -/
def wordBoundaryAt (t : List Char) (i : ℕ) : Bool :=
  match i with
  | 0 => wordAt t 0
  | j + 1 => wordAt t j != wordAt t (j + 1)

/-- Test of the regex `\b<literal>\b` against `t` (used by the source on
already-normalized, hence lower-cased, text). -/
def reTestWholeWord (pat s : String) : Bool :=
  let p := pat.data
  let t := s.data
  (List.range (t.length + 1)).any
    (fun i => matchLiteralAt t p i && wordBoundaryAt t i && wordBoundaryAt t (i + p.length))

/-- Case-insensitive occurrence of the literal `p` at index `i` of `t`,
with `\b` on both sides (the stop-phrase regexes carry the `gi` flags). -/
def wholeWordCIAt (p t : List Char) (i : ℕ) : Bool :=
  ((t.drop i).take p.length).map jsToLowerChar = p.map jsToLowerChar
    && wordBoundaryAt t i && wordBoundaryAt t (i + p.length)

/-- Scan of `t.replace(/\b<p>\b/gi, " ")` from index `i`: a match emits one
space and resumes after the matched text, otherwise one character is copied.
The index advances by at least 1 per step, so `t.length` steps of fuel
always suffice; fuel exhaustion is unreachable from `replaceWordCI`. -/
def replaceWordCIGo (p t : List Char) : ℕ → ℕ → List Char
  | _, 0 => []
  | i, fuel + 1 =>
    if h : i < t.length then
      if 0 < p.length ∧ wholeWordCIAt p t i then
        ' ' :: replaceWordCIGo p t (i + p.length) fuel
      else
        t.get ⟨i, h⟩ :: replaceWordCIGo p t (i + 1) fuel
    else []

def replaceWordCI (pat : String) (s : String) : String :=
  String.mk (replaceWordCIGo pat.data s.data 0 (s.data.length + 1))

/-- `.replace(/\s+/g, " ").trim()`. -/
def collapseTrim (s : String) : String :=
  String.mk (joinWords (wordsOf s.data))

def stopPhrases : List String :=
  ["original", "authentic", "100% authentic", "genuine", "w/ all paperwork",
   "with all paperwork", "with paperwork", "all paperwork", "paperwork",
   "receipt", "dust bag", "dustbag", "box", "tags", "brand new", "nwt",
   "mint", "rare"]

/-- `cleanTitleForSearch` from the source. -/
def cleanTitleForSearch (title : String) : String :=
  let t0 := collapseTrim (String.mk (title.data.map punctToSpace))
  collapseTrim (stopPhrases.foldl (fun t p => replaceWordCI p t) t0)

def ALLOWED_SIZES : List String :=
  ["15", "18", "20", "22", "24", "25", "26", "27", "28", "30", "32", "33",
   "34", "35", "36", "38", "40", "41", "45"]

/-- One attempted match of the size regex at index `i`: all alternatives are
two-digit literals, so at most one can match the text there. -/
def sizeMatchAt (t : List Char) (i : ℕ) : Option String :=
  ALLOWED_SIZES.find?
    (fun sz => matchLiteralAt t sz.data i && wordBoundaryAt t i && wordBoundaryAt t (i + 2))

/-- `extractSizeToken`: leftmost whole-word match of
`/\b(15|18|…|45)\b(?:\s*cm)?\b/` on the normalized title.  Because `\b`
already holds right after the digits, a failing optional `cm` suffix
backtracks to the empty alternative whose trailing `\b` coincides with the
middle one, so the suffix never affects acceptance or the captured group. -/
def extractSizeToken (title : String) : Option String :=
  let t := (normalize title).data
  (List.range t.length).findSome? (fun i => sizeMatchAt t i)

def LEATHER_TOKENS : List String :=
  ["epson", "togo", "clemence", "swift", "box", "chevre", "chevre mysore",
   "chevre mysores", "barenia", "barenia faubourg", "alligator", "crocodile",
   "ostrich", "lizard"]

/-- `extractLeatherToken`: first vocabulary hit, reduced to its first word. -/
def extractLeatherToken (title : String) : Option String :=
  let t := normalize title
  (LEATHER_TOKENS.find? (fun lt => jsIncludes t (normalize lt))).map
    (fun lt => (jsSplitSpace lt).headD "")

structure Price where
  amount : ℚ
  currency : String
deriving DecidableEq, Repr

/-- The analysis request (`AnalyzeRequest` in the source); optional fields
are `Option`s, `price.amount` is a JS number modelled as `ℚ`. -/
structure AnalyzeRequest where
  source : String
  url : String
  itemId : Option String
  title : String
  price : Price
  condition : Option String
  brand : Option String
  categoryHint : Option String
deriving DecidableEq, Repr

structure Comp where
  title : String
  price : Price
  condition : Option String
  url : String
  itemId : Option String
deriving DecidableEq, Repr

def isBirkinOrKelly (body : AnalyzeRequest) : Bool :=
  let t := normalize body.title
  let b := normalize (body.brand.getD "")
  jsIncludes b "hermes" && (jsIncludes t "birkin" || jsIncludes t "kelly")

def coreStopWords : List String :=
  ["bag", "handbag", "purse", "tote", "shoulder", "crossbody", "satchel",
   "hobo", "authentic", "original", "with", "all", "paperwork", "receipt",
   "dustbag", "dust", "box", "tags", "rare", "vintage", "women", "womens",
   "designer", "leather", "palladium", "gold", "silver", "hardware", "auth",
   "cert"]

/-- `tokenizeCore`: split the normalized title, drop stop words, keep
all-digit tokens only when they are allowed sizes, drop tokens shorter than
3 characters, deduplicate preserving first occurrence. -/
def tokenizeCore (title : String) : List String :=
  let t := normalize title
  let rawTokens := ((jsSplitSpace t).map jsTrim).filter (fun x => x ≠ "")
  rawTokens.foldl
    (fun out tok =>
      if coreStopWords.contains tok then out
      else if tok.data ≠ [] ∧ tok.data.all (fun c => '0' ≤ c && c ≤ '9') then
        (if ALLOWED_SIZES.contains tok ∧ ¬ out.contains tok then out ++ [tok] else out)
      else if tok.length < 3 then out
      else if out.contains tok then out
      else out ++ [tok])
    []

def noisyTerms : List String :=
  ["style", "inspired", "look", "like", "replica", "dupe", "faux", "not authentic"]

/-- `buildNegativeTerms` from the source. -/
def buildNegativeTerms (body : AnalyzeRequest) : List String :=
  let t := normalize body.title
  let b := normalize (body.brand.getD "")
  let base :=
    if !(jsIncludes b "hermes" && (jsIncludes t "birkin" || jsIncludes t "kelly"))
    then ["birkin", "kelly"] else []
  base ++ noisyTerms.filter (fun n => !jsIncludes t n)

/-- The model-hint pattern table.  On normalized text `\.?` can only match
the empty string (normalize turns "." into a space) and `\s+` can only
match a single space, so each source regex reduces to the whole-word
literal recorded here. -/
def modelPatterns : List (String × String) :=
  [("birkin", "birkin"), ("kelly", "kelly"), ("classic flap", "classic flap"),
   ("255", "2.55"), ("boy", "boy"), ("neverfull", "neverfull"),
   ("speedy", "speedy"), ("alma", "alma"), ("capucines", "capucines"),
   ("peekaboo", "peekaboo"), ("baguette", "baguette"), ("saddle", "saddle"),
   ("book tote", "book tote"), ("lady dior", "lady dior"),
   ("cassandre", "cassandre"), ("le 5 a 7", "le 5 a 7"), ("loulou", "loulou"),
   ("jamie", "jamie")]

def extractModelHint (body : AnalyzeRequest) : Option String :=
  let t := normalize body.title
  (modelPatterns.find? (fun p => reTestWholeWord p.1 t)).map (fun p => p.2)

def quoteStr (s : String) : String := "\"" ++ s ++ "\""

/-- `buildSearchQuery` from the source (the single query string the handler
then hands to both search collaborators). -/
def buildSearchQuery (body : AnalyzeRequest) : String :=
  let titleClean := cleanTitleForSearch body.title
  let brand := jsTrim (body.brand.getD "")
  let brandPart := if brand ≠ "" then quoteStr brand else ""
  let size := extractSizeToken titleClean
  let leather := extractLeatherToken titleClean
  let modelHint := extractModelHint body
  if isBirkinOrKelly body then
    let t := normalize titleClean
    let model := if jsIncludes t "birkin" then "Birkin" else "Kelly"
    let parts := [if brandPart ≠ "" then brandPart else quoteStr "Hermes",
                  quoteStr model,
                  match size with | some s => quoteStr s | none => "",
                  match leather with | some l => quoteStr l | none => ""]
    jsTrim (String.intercalate " " (parts.filter (fun p => p ≠ "")))
  else
    let tokens0 := (tokenizeCore titleClean).take 7
    let tokens1 :=
      match modelHint with
      | some mh0 =>
        let mh := normalize mh0
        if ¬ tokens0.contains mh then mh :: tokens0 else tokens0
      | none => tokens0
    let tokens2 :=
      match size with
      | some s => if ¬ tokens1.contains s then s :: tokens1 else tokens1
      | none => tokens1
    let tokens3 :=
      match leather with
      | some l => if ¬ tokens2.contains l then tokens2 ++ [l] else tokens2
      | none => tokens2
    let core :=
      if tokens3 ≠ [] then String.intercalate " " (tokens3.map quoteStr)
      else quoteStr titleClean
    let negatives := buildNegativeTerms body
    let negativeStr := String.intercalate " " (negatives.map (fun n => "-" ++ quoteStr n))
    jsTrim (String.intercalate " " ([brandPart, core, negativeStr].filter (fun p => p ≠ "")))

def bagSignals : List String :=
  ["bag", "handbag", "tote", "flap", "hobo", "satchel", "shoulder bag",
   "crossbody", "kelly", "birkin", "chanel", "hermes", "louis vuitton", "lv",
   "dior", "prada", "gucci", "celine", "fendi", "ysl", "saint laurent"]

def looksLikeBag (text : String) : Bool :=
  let t := normalize text
  bagSignals.any (fun s => jsIncludes t (normalize s))

def JUNK_PHRASES : List String :=
  ["strap", "shoulder strap", "chain", "charm", "bag charm", "twilly",
   "scarf", "keychain", "key chain", "key holder", "wallet", "card holder",
   "cardholder", "coin purse", "pouch", "insert", "organizer", "base shaper",
   "shaper", "stuffing", "raincoat", "rain coat", "cover", "replacement",
   "repair", "handle", "hardware", "lock only", "keys only",
   "certificate only", "auth card", "authenticity card", "receipt only",
   "box only", "dust bag only", "dustbag only", "for parts", "parts only"]

def REPLICA_SIGNALS : List String :=
  ["replica", "super fake", "dupe", "inspired", "style", "look like",
   "not authentic", "faux", "knockoff", "counterfeit", "copy", "mirror 1:1"]

def isObviousJunkCompTitle (title : String) : Bool :=
  let t := normalize title
  if t = "" then true
  else if REPLICA_SIGNALS.any (fun s => jsIncludes t (normalize s)) then true
  else if JUNK_PHRASES.any (fun p => jsIncludes t (normalize p)) then true
  else false

/-- `normalizeBrand` (brand-alias canonicalization; `null` for empty). -/
def normalizeBrand (b : Option String) : Option String :=
  let t := normalize (b.getD "")
  if t = "" then none
  else if t = "louisvuitton" then some "louis vuitton"
  else if t = "saintlaurent" then some "saint laurent"
  else if t = "yvessaintlaurent" then some "saint laurent"
  else some t

inductive CondBucket
  | new
  | used
  | unknown
deriving DecidableEq, Repr

def conditionBucket (cond : Option String) : CondBucket :=
  let c := normalize (cond.getD "")
  if c = "" then .unknown
  else if jsIncludes c "new" || jsIncludes c "brand new" || jsIncludes c "unused" then .new
  else if jsIncludes c "pre-owned" || jsIncludes c "used" || jsIncludes c "very good"
       || jsIncludes c "good" || jsIncludes c "acceptable" then .used
  else .unknown

/-- Target attributes derived once per request (`buildTargetSignals`). -/
structure TargetSignals where
  brand : String
  size : Option String
  leather : Option String
  modelHint : Option String
  coreTokens : List String
  modelTokens : List String
  brandTokens : List String
  negatives : List String
  asking : ℚ
  askingCurrency : String
  targetCond : CondBucket
deriving DecidableEq, Repr

def buildTargetSignals (body : AnalyzeRequest) : TargetSignals :=
  let titleClean := cleanTitleForSearch body.title
  let brand := (normalizeBrand body.brand).getD ""
  let size := extractSizeToken titleClean
  let leather := extractLeatherToken titleClean
  let modelHint := extractModelHint body
  let coreTokens := tokenizeCore titleClean
  let modelTokens :=
    match modelHint with
    | some mh => ((jsSplitSpace mh).map normalize).filter (fun x => x ≠ "")
    | none => []
  let brandTokens :=
    if brand ≠ "" then ((jsSplitSpace brand).map jsTrim).filter (fun x => x ≠ "") else []
  { brand := brand
    size := size
    leather := leather
    modelHint := modelHint.map normalize
    coreTokens := coreTokens
    modelTokens := modelTokens
    brandTokens := brandTokens
    negatives := buildNegativeTerms body
    asking := body.price.amount
    askingCurrency := if body.price.currency = "" then "USD" else body.price.currency
    targetCond := conditionBucket body.condition }

/-- Exact integer characterization of
`Math.round(45 * Math.pow(hits / total, 0.7))`: the value is the number of
positive integers `m ≤ 45` with `m - 1/2 ≤ 45 * (hits/total)^(7/10)`, i.e.
with `(2m-1)^10 * total^7 ≤ hits^7 * 90^10`.  The theorem
`powScore45_eq_round` below proves this equal to the real-number formula;
the double-precision computation agrees because no value of the formula
lies near a rounding boundary. -/
def powScore45 (hits total : ℕ) : ℤ :=
  if total = 0 then 0
  else
    (((List.range 45).filter
      (fun j : ℕ =>
        decide ((2 * (j : ℤ) + 1) ^ 10 * (total : ℤ) ^ 7 ≤ (hits : ℤ) ^ 7 * 90 ^ 10))).length : ℤ)

structure OverlapResult where
  hits : ℕ
  total : ℕ
  score : ℤ
deriving DecidableEq, Repr

/-- `tokenOverlapScore`: count the target tokens whose (re-)normalized form
is nonempty and occurs as a whole word in the normalized comp title. -/
def tokenOverlapScore (targetTokens : List String) (compTitleNorm : String) : OverlapResult :=
  if targetTokens = [] then ⟨0, 0, 0⟩
  else
    let hits :=
      (targetTokens.filter
        (fun tok => normalize tok ≠ "" && reTestWholeWord (normalize tok) compTitleNorm)).length
    let total := targetTokens.length
    ⟨hits, total, powScore45 hits total⟩

/-- `priceClosenessScore`:
`Math.round(clamp(25 * (1 - |ln(compPrice/asking)|), 0, 25))`, zero when
either price is non-positive.  `Math.log` forces `Real.log`, hence this one
definition is noncomputable. -/
noncomputable def priceClosenessScore (asking compPrice : ℚ) : ℤ :=
  if asking ≤ 0 ∨ compPrice ≤ 0 then 0
  else
    round (max (0 : ℝ) (min 25 (25 * (1 - |Real.log ((compPrice : ℝ) / (asking : ℝ))|))))

def clampInt (n lo hi : ℤ) : ℤ := max lo (min hi n)

/-- A comp together with its quality score and reason tags (`ScoredComp`). -/
structure ScoredComp where
  comp : Comp
  qualityScore : ℤ
  qualityWhy : List String
deriving DecidableEq, Repr

/-- The generic-overlap token set:
`Array.from(new Set([...modelTokens, ...coreTokens])).slice(0, 8)` —
first-occurrence deduplication of the concatenation, then the first 8. -/
def genericTokens (target : TargetSignals) : List String :=
  ((target.modelTokens ++ target.coreTokens).foldl
    (fun acc x => if acc.contains x then acc else acc ++ [x]) []).take 8

/-- The score and reason tags of one comp against the target (the additive
part of the per-comp body of `rankAndFilterComps`, including the final
clamp to [0, 100]). -/
noncomputable def scoredOf (target : TargetSignals) (c : Comp) : ScoredComp :=
  let titleNorm := normalize c.title
  let negHit := target.negatives.find? (fun n => jsIncludes titleNorm (normalize n))
  let negPart : ℤ × List String :=
    match negHit with
    | some n => (-35, ["neg:" ++ n])
    | none => (0, [])
  let brandPart : ℤ × List String :=
    if target.brand ≠ "" then
      if jsIncludes titleNorm target.brand then (22, ["brand+"])
      else if 2 ≤ target.brandTokens.length
          ∧ 1 ≤ (tokenOverlapScore target.brandTokens titleNorm).hits then (12, ["brand~"])
      else (0, [])
    else (0, [])
  let modelPart : ℤ × List String :=
    match target.modelHint with
    | some mh =>
      if jsIncludes titleNorm mh then (18, ["model+"])
      else if target.modelTokens ≠ []
          ∧ min 2 target.modelTokens.length ≤ (tokenOverlapScore target.modelTokens titleNorm).hits
      then (10, ["model~"])
      else (0, [])
    | none => (0, [])
  let sizePart : ℤ × List String :=
    match target.size with
    | some sz =>
      match extractSizeToken c.title with
      | some cs =>
        if cs = sz then (20, ["size+"]) else (-18, ["size!(" ++ cs ++ ")"])
      | none => (-8, ["size?"])
    | none => (0, [])
  let leatherPart : ℤ × List String :=
    match target.leather with
    | some l =>
      match extractLeatherToken c.title with
      | some cl =>
        if cl = l then (10, ["leather+"]) else (-6, ["leather!(" ++ cl ++ ")"])
      | none => (0, [])
    | none => (0, [])
  let overlap := (tokenOverlapScore (genericTokens target) titleNorm).score
  let condPart : ℤ :=
    if target.targetCond ≠ .unknown ∧ conditionBucket c.condition ≠ .unknown then
      (if target.targetCond = conditionBucket c.condition then 6 else -4)
    else 0
  let ccyPart : ℤ × List String :=
    if c.price.currency ≠ "" ∧ target.askingCurrency ≠ ""
        ∧ c.price.currency ≠ target.askingCurrency then (-6, ["ccy!"])
    else (0, [])
  let raw := negPart.1 + brandPart.1 + modelPart.1 + sizePart.1 + leatherPart.1
    + overlap + condPart + ccyPart.1 + priceClosenessScore target.asking c.price.amount
  ⟨c, clampInt raw 0 100,
    negPart.2 ++ brandPart.2 ++ modelPart.2 ++ sizePart.2 ++ leatherPart.2 ++ ccyPart.2⟩

/-- The per-comp body of `rankAndFilterComps`: junk/band rejection, then
the score with its final `< 45` cutoff. -/
noncomputable def scoreComp (target : TargetSignals) (c : Comp) : Option ScoredComp :=
  if c.url = "" ∨ normalize c.title = "" then none
  else if isObviousJunkCompTitle c.title then none
  else if 0 < target.asking ∧ 0 < c.price.amount ∧ 300 ≤ target.asking
      ∧ (c.price.amount < target.asking * (25 / 100) ∨ target.asking * 3 < c.price.amount) then none
  else if (scoredOf target c).qualityScore < 45 then none
  else some (scoredOf target c)

/-- Stable insertion (a later element goes after all already-placed elements
with a score ≥ its own). -/
def insertDesc (x : ScoredComp) : List ScoredComp → List ScoredComp
  | [] => [x]
  | y :: ys => if y.qualityScore < x.qualityScore then x :: y :: ys else y :: insertDesc x ys

/-- The stable descending sort `out.sort((a, b) => b.qualityScore - a.qualityScore)`
(`Array.prototype.sort` is stable, so its output is exactly the stable
descending reordering produced by left-to-right stable insertion). -/
def sortByScoreDesc (l : List ScoredComp) : List ScoredComp :=
  l.foldl (fun acc x => insertDesc x acc) []

/-- Survivors of the rejection/threshold pipeline, in input order. -/
noncomputable def keptComps (target : TargetSignals) (compsIn : List Comp) : List ScoredComp :=
  compsIn.filterMap (scoreComp target)

structure RankCounts where
  input : ℕ
  kept : ℕ
  used : ℕ
deriving DecidableEq, Repr

structure RankResult where
  ranked : List ScoredComp
  usedForStats : List ScoredComp
  counts : RankCounts

/-- `rankAndFilterComps` from the source. -/
noncomputable def rankAndFilterComps (body : AnalyzeRequest) (compsIn : List Comp) : RankResult :=
  let target := buildTargetSignals body
  let out := sortByScoreDesc (keptComps target compsIn)
  let topForStats := out.filter (fun c => 60 ≤ c.qualityScore)
  let usedForStats := (if 4 ≤ topForStats.length then topForStats else out).take 10
  { ranked := out
    usedForStats := usedForStats
    counts := ⟨compsIn.length, out.length, usedForStats.length⟩ }

def insertAsc (x : ℚ) : List ℚ → List ℚ
  | [] => [x]
  | y :: ys => if x ≤ y then x :: y :: ys else y :: insertAsc x ys

/-- JS `arr.sort((a, b) => a - b)` on numbers. -/
def sortAsc (l : List ℚ) : List ℚ :=
  l.foldl (fun acc x => insertAsc x acc) []

/-- `median` from the source.  On the empty list the source produces `NaN`;
the model returns 0 there — no verified claim touches that case. -/
def median (nums : List ℚ) : ℚ :=
  let arr := sortAsc nums
  let mid := arr.length / 2
  if arr.length % 2 = 1 then arr.getD mid 0
  else (arr.getD (mid - 1) 0 + arr.getD mid 0) / 2

/-- `percentile` from the source (linear interpolation between order
statistics at index `(n − 1) · p`). -/
def percentile (nums : List ℚ) (p : ℚ) : ℚ :=
  let arr := sortAsc nums
  let idx := ((arr.length : ℚ) - 1) * p
  let lo := ⌊idx⌋
  let hi := ⌈idx⌉
  if lo = hi then arr.getD lo.toNat 0
  else arr.getD lo.toNat 0 + (arr.getD hi.toNat 0 - arr.getD lo.toNat 0) * (idx - (lo : ℚ))

/-- A JS number as seen by the ratio computations: a finite rational or one
of the non-finite values that division can produce. -/
inductive JSNum
  | num (q : ℚ)
  | nan
  | posInf
  | negInf
deriving DecidableEq, Repr

/-- JS division `a / b` (division by zero yields ±Infinity or NaN). -/
def jsDiv (a b : ℚ) : JSNum :=
  if b = 0 then (if 0 < a then .posInf else if a < 0 then .negInf else .nan)
  else .num (a / b)

/-- JS `x <= q` (false on NaN and +Infinity, true on -Infinity). -/
def jsLe (x : JSNum) (q : ℚ) : Bool :=
  match x with
  | .num a => a ≤ q
  | .negInf => true
  | _ => false

inductive DealLabel
  | great_deal
  | fair_price
  | overpriced
deriving DecidableEq, Repr

/-- The deal classifier (`dealLabelFromRat io` in the source, applied to
`asking / median`): non-finite or non-positive input fails safe to
`fair_price`, then the 0.88 / 1.05 thresholds apply. -/
def dealLabelFromR (x : JSNum) : DealLabel :=
  match x with
  | .num r =>
    if r ≤ 0 then .fair_price
    else if r ≤ 88 / 100 then .great_deal
    else if r ≤ 105 / 100 then .fair_price
    else .overpriced
  | _ => .fair_price

inductive DataCoverage
  | strong
  | standard
  | limited
deriving DecidableEq, Repr

/-- `coverageFromQuality` from the source. -/
def coverageFromQuality (usedForStats : List ScoredComp) : DataCoverage :=
  if 10 ≤ usedForStats.length then
    let avg : ℚ :=
      ((usedForStats.foldl (fun s c => s + c.qualityScore) 0 : ℤ) : ℚ) / (usedForStats.length : ℚ)
    if 78 ≤ avg then .strong else if 68 ≤ avg then .standard else .limited
  else if 7 ≤ usedForStats.length then .standard
  else .limited

/-- Loop state of the sold-comps window escalation in the handler. -/
structure SoldState where
  soldAll : List Comp
  soldWindowDays : Option ℕ
  bestSoldCount : ℕ
  bestSoldWindow : Option ℕ
deriving DecidableEq, Repr

def soldWindows : List ℕ := [90, 180, 365]

def minSoldForStrong : ℕ := 12

/-- The `for (const days of SOLD_WINDOWS)` loop: a collaborator failure
(`none`) is caught and skipped; a success updates the best-attempt
counters, breaks when the minimum is met, and otherwise keeps the strictly
largest attempt so far. -/
def soldLoopGo (oracle : ℕ → Option (List Comp)) : List ℕ → SoldState → SoldState
  | [], st => st
  | d :: rest, st =>
    match oracle d with
    | none => soldLoopGo oracle rest st
    | some sold =>
      let st1 :=
        if st.bestSoldCount < sold.length then
          { st with bestSoldCount := sold.length, bestSoldWindow := some d }
        else st
      if minSoldForStrong ≤ sold.length then
        { st1 with soldAll := sold, soldWindowDays := some d }
      else
        let st2 :=
          if st1.soldAll.length < sold.length then
            { st1 with soldAll := sold, soldWindowDays := some d }
          else st1
        soldLoopGo oracle rest st2

def soldLoop (oracle : ℕ → Option (List Comp)) : SoldState :=
  soldLoopGo oracle soldWindows ⟨[], none, 0, none⟩

structure RoundedMoney where
  amount : ℤ
  currency : String
deriving DecidableEq, Repr

structure DealInfo where
  label : DealLabel
  score : ℤ
deriving DecidableEq, Repr

structure EstimateInfo where
  marketValue : RoundedMoney
  low : RoundedMoney
  high : RoundedMoney
  confidence : DataCoverage
  method : String
deriving DecidableEq, Repr

/-- The response payload, restricted to the fields the verified claims are
about (deal verdict, estimate, resale median, window diagnostics, query). -/
structure Payload where
  deal : DealInfo
  estimate : EstimateInfo
  resalePotentialValue : Option RoundedMoney
  soldDaysWindow : Option ℕ
  query : String

/-- Payload construction (handler step 5): sold-comps statistics when at
least 4 stat-eligible comps exist, otherwise the heuristic fallback. -/
noncomputable def buildPayload (body : AnalyzeRequest) (query : String) (activeMed : Option ℚ)
    (soldRanked : RankResult) (soldWindowDays bestWindow : Option ℕ) : Payload :=
  let cur := body.price.currency
  let resale := activeMed.map (fun m => RoundedMoney.mk (round m) cur)
  if 4 ≤ soldRanked.usedForStats.length then
    let prices :=
      (soldRanked.usedForStats.map (fun c => c.comp.price.amount)).filter (fun n => 0 < n)
    let med := median prices
    let lowQ := percentile prices (25 / 100)
    let highQ := percentile prices (75 / 100)
    let asking := body.price.amount
    let r := jsDiv asking med
    let score : ℤ :=
      if jsLe r (85 / 100) then 88
      else if jsLe r (95 / 100) then 80
      else if jsLe r (105 / 100) then 68
      else if jsLe r (115 / 100) then 58
      else 48
    { deal := ⟨dealLabelFromR r, score⟩
      estimate :=
        { marketValue := ⟨round med, cur⟩
          low := ⟨round lowQ, cur⟩
          high := ⟨round highQ, cur⟩
          confidence := coverageFromQuality soldRanked.usedForStats
          method := "sold-comps-median-top-quality-"
            ++ (match soldWindowDays with | some d => toString d | none => "window") }
      resalePotentialValue := resale
      soldDaysWindow := soldWindowDays.orElse (fun _ => bestWindow)
      query := query }
  else
    let asking := body.price.amount
    let est := asking * (93 / 100)
    let lowQ := asking * (84 / 100)
    let highQ := asking * (102 / 100)
    let r := jsDiv asking est
    let score : ℤ :=
      if jsLe r (95 / 100) then 74 else if jsLe r (105 / 100) then 62 else 54
    { deal := ⟨dealLabelFromR r, score⟩
      estimate :=
        { marketValue := ⟨round est, cur⟩
          low := ⟨round lowQ, cur⟩
          high := ⟨round highQ, cur⟩
          confidence := .limited
          method := "limited-sold-signals" }
      resalePotentialValue := resale
      soldDaysWindow := soldWindowDays.orElse (fun _ => bestWindow)
      query := query }

/-- The active-comps median of the handler (step A): rank the active
comps and take the median of the positive prices of the used subset. -/
noncomputable def handlerActiveMed (body : AnalyzeRequest)
    (activeResult : Option (List Comp)) : Option ℚ :=
  let activeAll := activeResult.getD []
  let activeRanked := rankAndFilterComps body activeAll
  let activePrices :=
    (activeRanked.usedForStats.map (fun c => c.comp.price.amount)).filter (fun n => 0 < n)
  if activePrices = [] then none else some (median activePrices)

/-- The handler pipeline from request validation to the response payload.
The HTTP / identity / cache / logging glue is outside the engine; the two
search collaborators are oracles (`none` models a thrown failure: the
active fetch is wrapped in `try … catch`, the sold fetch is retried over
the lookback windows). -/
noncomputable def handlerCore (body : AnalyzeRequest) (activeResult : Option (List Comp))
    (soldOracle : ℕ → Option (List Comp)) : Except String Payload :=
  if body.source ≠ "ebay" then .error "Only source=ebay supported (Phase 1)"
  else if body.title = "" ∨ body.price.currency = "" then .error "Missing title/price"
  else
    let text :=
      jsToLowerString (body.title ++ " " ++ body.categoryHint.getD "" ++ " " ++ body.brand.getD "")
    if ¬ looksLikeBag text then .error "Phase 1 supports bags only"
    else
      let st := soldLoop soldOracle
      let soldRanked := rankAndFilterComps body st.soldAll
      .ok (buildPayload body (buildSearchQuery body) (handlerActiveMed body activeResult)
        soldRanked st.soldWindowDays st.bestSoldWindow)

/-- The `q` parameter actually sent by `fetchActiveComps`:
`params.query.trim().slice(0, 200)`. -/
def activeSearchQ (query : String) : String := jsSlice (jsTrim query) 200

/-- The `keywords` parameter actually sent by `fetchSoldComps`:
`params.query.trim().slice(0, 250)`. -/
def soldSearchKeywords (query : String) : String := jsSlice (jsTrim query) 250

/-- Modelled from the spec (§5, refinement target for the sold-window
claim): take the first lookback window whose attempt meets the minimum comp
count; if none does, keep the attempt that returned the most comps
(earliest such window), recording that window; failures count as zero
comps. -/
def soldSelectSpec (oracle : ℕ → Option (List Comp)) : List Comp × Option ℕ :=
  let count := fun d => ((oracle d).getD []).length
  match soldWindows.find? (fun d => minSoldForStrong ≤ count d) with
  | some d => ((oracle d).getD [], some d)
  | none =>
    let m := (soldWindows.map count).foldr max 0
    if m = 0 then ([], none)
    else
      match soldWindows.find? (fun d => count d = m) with
      | some d => ((oracle d).getD [], some d)
      | none => ([], none)

/-- Modelled from the claim wording of C6: the union of the model tokens
and the *first 8 core tokens* (the source instead truncates the union). -/
def claimedTokenSet (target : TargetSignals) : List String :=
  (target.modelTokens ++ target.coreTokens.take 8).foldl
    (fun acc x => if acc.contains x then acc else acc ++ [x]) []

/-- Modelled from the claim wording of C6: hits over the claimed token set,
contribution `round(45 · (hits/total)^0.7)`. -/
noncomputable def claimedGenericOverlap (target : TargetSignals) (compTitleNorm : String) : ℤ :=
  let toks := claimedTokenSet target
  let hits := (toks.filter (fun tok => reTestWholeWord tok compTitleNorm)).length
  round ((45 : ℝ) * ((hits : ℝ) / (toks.length : ℝ)) ^ (0.7 : ℝ))

/-- A concrete non-Hermès request used as a test vector. -/
def exLvSpeedy : AnalyzeRequest :=
  ⟨"ebay", "https://www.ebay.com/itm/1", none, "Louis Vuitton Speedy 30 Monogram",
    ⟨800, "USD"⟩, none, some "Louis Vuitton", none⟩

/-- A concrete Hermès Birkin request used as a test vector. -/
def exHermesBirkin : AnalyzeRequest :=
  ⟨"ebay", "https://www.ebay.com/itm/2", none, "Hermès Birkin 30 Togo",
    ⟨9000, "USD"⟩, none, some "Hermès", none⟩

/-- A concrete request whose title has 8 core tokens before the model word,
so that the claimed and actual generic-overlap token sets differ. -/
def exLateModel : AnalyzeRequest :=
  ⟨"ebay", "https://www.ebay.com/itm/3", none,
    "aaa bbb ccc ddd eee fff ggg hhh speedy",
    ⟨500, "USD"⟩, none, none, none⟩

/-- A concrete request used for the heuristic-fallback test vector. -/
def exNeverfull : AnalyzeRequest :=
  ⟨"ebay", "https://www.ebay.com/itm/4", none, "Louis Vuitton Neverfull MM",
    ⟨800, "USD"⟩, none, some "Louis Vuitton", none⟩

/-- A concrete request used for the deal-label fallback test vector. -/
def exMarmont : AnalyzeRequest :=
  ⟨"ebay", "https://www.ebay.com/itm/5", none, "Gucci Marmont Bag",
    ⟨1000, "USD"⟩, none, some "Gucci", none⟩

/-! ### Helper lemmas: the overlap score versus the real-number formula -/

theorem count_lt_range (n K : ℕ) :
    ((List.range n).filter (fun j => decide (j < K))).length = min K n := by
  induction n with
  | zero => simp
  | succ n ih =>
    rw [List.range_succ, List.filter_append, List.length_append, ih]
    rcases Nat.lt_or_ge n K with h | h
    · rw [List.filter_cons, if_pos (by simpa using h), List.filter_nil]
      simp only [List.length_cons, List.length_nil]
      omega
    · rw [List.filter_cons, if_neg (by simpa using Nat.not_lt.mpr h), List.filter_nil]
      simp only [List.length_nil]
      omega

theorem overlapThreshold_iff (h t j : ℕ) (htpos : 0 < t) :
    ((2 * (j : ℤ) + 1) ^ 10 * (t : ℤ) ^ 7 ≤ (h : ℤ) ^ 7 * 90 ^ 10) ↔
      ((j : ℝ) + 1 ≤ 45 * ((h : ℝ) / (t : ℝ)) ^ (0.7 : ℝ) + 1 / 2) := by
  have htR : (0 : ℝ) < (t : ℝ) := by exact_mod_cast htpos
  have hr0 : (0 : ℝ) ≤ (h : ℝ) / (t : ℝ) := div_nonneg (by positivity) htR.le
  have pow10 : (((h : ℝ) / (t : ℝ)) ^ ((0.7 : ℝ))) ^ (10 : ℕ) = ((h : ℝ) / (t : ℝ)) ^ (7 : ℕ) := by
    rw [← Real.rpow_natCast (((h : ℝ) / (t : ℝ)) ^ ((0.7 : ℝ))) 10, ← Real.rpow_mul hr0,
      ← Real.rpow_natCast ((h : ℝ) / (t : ℝ)) 7]
    norm_num
  have step1 : ((j : ℝ) + 1 ≤ 45 * ((h : ℝ) / (t : ℝ)) ^ (0.7 : ℝ) + 1 / 2) ↔
      ((2 * (j : ℝ) + 1) / 90 ≤ ((h : ℝ) / (t : ℝ)) ^ (0.7 : ℝ)) := by
    rw [div_le_iff (by norm_num : (0 : ℝ) < 90)]
    constructor <;> intro hx <;> nlinarith
  have step2 : ((2 * (j : ℝ) + 1) / 90 ≤ ((h : ℝ) / (t : ℝ)) ^ (0.7 : ℝ)) ↔
      (((2 * (j : ℝ) + 1) / 90) ^ (10 : ℕ) ≤ ((h : ℝ) / (t : ℝ)) ^ (7 : ℕ)) := by
    rw [← pow10]
    constructor
    · intro hx
      exact pow_le_pow_left (by positivity) hx 10
    · intro hx
      exact le_of_pow_le_pow_left (by norm_num) (Real.rpow_nonneg hr0 _) hx
  have step3 : (((2 * (j : ℝ) + 1) / 90) ^ (10 : ℕ) ≤ ((h : ℝ) / (t : ℝ)) ^ (7 : ℕ)) ↔
      ((2 * (j : ℝ) + 1) ^ 10 * (t : ℝ) ^ 7 ≤ (h : ℝ) ^ 7 * 90 ^ 10) := by
    rw [div_pow, div_pow, div_le_div_iff (by norm_num) (by positivity)]
  rw [step1, step2, step3]
  constructor
  · intro hx
    exact_mod_cast hx
  · intro hx
    exact_mod_cast hx

/-- The executable overlap score agrees with the real-number formula
`Math.round(45 * Math.pow(hits / total, 0.7))` of the source. -/
theorem powScore45_eq_round (h t : ℕ) (hht : h ≤ t) :
    powScore45 h t = round ((45 : ℝ) * ((h : ℝ) / (t : ℝ)) ^ (0.7 : ℝ)) := by
  rcases Nat.eq_zero_or_pos t with ht0 | htpos
  · subst ht0
    have h0 : h = 0 := Nat.le_zero.mp hht
    subst h0
    rw [powScore45]
    norm_num
  · have htR : (0 : ℝ) < (t : ℝ) := by exact_mod_cast htpos
    have hr0 : (0 : ℝ) ≤ (h : ℝ) / (t : ℝ) := div_nonneg (by positivity) htR.le
    have hr1 : (h : ℝ) / (t : ℝ) ≤ 1 := by
      rw [div_le_one htR]
      exact_mod_cast hht
    set x : ℝ := 45 * ((h : ℝ) / (t : ℝ)) ^ (0.7 : ℝ) with hxdef
    have hx0 : 0 ≤ x := mul_nonneg (by norm_num) (Real.rpow_nonneg hr0 _)
    have hx45 : x ≤ 45 := by
      have : ((h : ℝ) / (t : ℝ)) ^ (0.7 : ℝ) ≤ 1 :=
        Real.rpow_le_one hr0 hr1 (by norm_num)
      nlinarith
    have hK0 : 0 ≤ ⌊x + 1 / 2⌋ := Int.floor_nonneg.mpr (by linarith)
    have hK45 : ⌊x + 1 / 2⌋ ≤ 45 := by
      have h46 : ⌊x + 1 / 2⌋ < 46 := Int.floor_lt.mpr (by push_cast; linarith)
      omega
    have hfil : ∀ j ∈ List.range 45,
        (decide ((2 * (j : ℤ) + 1) ^ 10 * (t : ℤ) ^ 7 ≤ (h : ℤ) ^ 7 * 90 ^ 10)) =
          (decide ((j : ℤ) < ⌊x + 1 / 2⌋)) := by
      intro j _
      apply decide_eq_decide.mpr
      rw [overlapThreshold_iff h t j htpos]
      rw [show ((j : ℝ) + 1 ≤ x + 1 / 2) ↔ ((j : ℤ) + 1 ≤ ⌊x + 1 / 2⌋) from by
        rw [Int.le_floor]; push_cast; exact Iff.rfl]
      omega
    have hfil2 : ∀ j ∈ List.range 45,
        (decide ((j : ℤ) < ⌊x + 1 / 2⌋)) = (decide (j < (⌊x + 1 / 2⌋).toNat)) := by
      intro j _
      apply decide_eq_decide.mpr
      omega
    rw [powScore45, if_neg (Nat.pos_iff_ne_zero.mp htpos), round_eq,
      List.filter_congr hfil, List.filter_congr hfil2, count_lt_range]
    omega

/-- C6 (amended): for every target and every normalized comp title, the
generic token-overlap contribution added to the comp's score equals
`round(45 · (hits/total)^0.7)` where the token set is the *first 8 elements
of the first-occurrence deduplication of model tokens ++ core tokens*,
`hits` counts the tokens of that set occurring as whole words in the
normalized comp title, and `total` is the size of that set. -/
theorem c6_generic_overlap_formula (target : TargetSignals) (compTitleNorm : String) :
    (tokenOverlapScore (genericTokens target) compTitleNorm).score =
      round ((45 : ℝ) *
        ((((genericTokens target).filter
            (fun tok => normalize tok ≠ "" && reTestWholeWord (normalize tok) compTitleNorm)).length : ℝ) /
          ((genericTokens target).length : ℝ)) ^ (0.7 : ℝ)) := by
  by_cases hempty : genericTokens target = []
  · rw [tokenOverlapScore, if_pos hempty, hempty]
    have h00 := powScore45_eq_round 0 0 le_rfl
    have h0 : powScore45 0 0 = 0 := by decide
    rw [h0] at h00
    simpa using h00
  · rw [tokenOverlapScore, if_neg hempty]
    exact powScore45_eq_round _ _ (List.length_filter_le _ _)

set_option maxHeartbeats 2000000 in
/-- C6 counterexample: with the token set the claim describes (model tokens
∪ first 8 core tokens) the formula gives 10 on this input, while the code
adds 0 — the code truncates the deduplicated union to 8 tokens, which here
drops the very token the comp title contains. -/
theorem c6_counterexample :
    (tokenOverlapScore (genericTokens (buildTargetSignals exLateModel)) (normalize "hhh")).score ≠
      claimedGenericOverlap (buildTargetSignals exLateModel) (normalize "hhh") := by
  have key : (tokenOverlapScore (genericTokens (buildTargetSignals exLateModel))
        (normalize "hhh")).score = 0 ∧
      ((claimedTokenSet (buildTargetSignals exLateModel)).filter
        (fun tok => reTestWholeWord tok (normalize "hhh"))).length = 1 ∧
      (claimedTokenSet (buildTargetSignals exLateModel)).length = 9 := by decide
  obtain ⟨hL, hhits, htot⟩ := key
  have hR : claimedGenericOverlap (buildTargetSignals exLateModel) (normalize "hhh") =
      round ((45 : ℝ) * (((1 : ℕ) : ℝ) / ((9 : ℕ) : ℝ)) ^ (0.7 : ℝ)) := by
    simp only [claimedGenericOverlap, hhits, htot]
  have h10 : round ((45 : ℝ) * (((1 : ℕ) : ℝ) / ((9 : ℕ) : ℝ)) ^ (0.7 : ℝ)) = 10 := by
    have heq := powScore45_eq_round 1 9 (by norm_num)
    have hv : powScore45 1 9 = 10 := by decide
    rw [hv] at heq
    exact heq.symm
  rw [hL, hR, h10]
  decide

/-- C5: the deal classifier returns `fair_price` on non-finite or
non-positive ratios (fail-safe), `great_deal` for ratios in (0, 0.88],
`fair_price` in (0.88, 1.05], and `overpriced` above 1.05. -/
theorem c5_deal_label (q : ℚ) :
    (dealLabelFromR .nan = .fair_price ∧ dealLabelFromR .posInf = .fair_price ∧
      dealLabelFromR .negInf = .fair_price) ∧
    (q ≤ 0 → dealLabelFromR (.num q) = .fair_price) ∧
    (0 < q → q ≤ 88 / 100 → dealLabelFromR (.num q) = .great_deal) ∧
    (88 / 100 < q → q ≤ 105 / 100 → dealLabelFromR (.num q) = .fair_price) ∧
    (105 / 100 < q → dealLabelFromR (.num q) = .overpriced) := by
  refine ⟨⟨rfl, rfl, rfl⟩, ?_, ?_, ?_, ?_⟩
  · intro h
    rw [dealLabelFromR, if_pos h]
  · intro h1 h2
    rw [dealLabelFromR, if_neg (by linarith), if_pos h2]
  · intro h1 h2
    rw [dealLabelFromR, if_neg (by linarith), if_neg (by linarith), if_pos h2]
  · intro h1
    rw [dealLabelFromR, if_neg (by linarith), if_neg (by linarith), if_neg (by linarith)]

theorem c5_witness :
    dealLabelFromR (.num (1 / 2)) = .great_deal ∧
    dealLabelFromR (.num 1) = .fair_price ∧
    dealLabelFromR (.num 2) = .overpriced ∧
    dealLabelFromR (.num (-1)) = .fair_price :=
  ⟨(c5_deal_label (1 / 2)).2.2.1 (by norm_num) (by norm_num),
   (c5_deal_label 1).2.2.2.1 (by norm_num) (by norm_num),
   (c5_deal_label 2).2.2.2.2 (by norm_num),
   (c5_deal_label (-1)).2.1 (by norm_num)⟩

/-- C7: the negative terms include "birkin" and "kelly" exactly when the
target is not itself a Hermès Birkin/Kelly (normalized brand contains
"hermes" and normalized title contains "birkin" or "kelly"); in particular
the non-Hermès Louis Vuitton Speedy example includes both and the Hermès
Birkin example includes neither. -/
theorem c7_negative_terms :
    (∀ body : AnalyzeRequest,
      (¬ (jsIncludes (normalize (body.brand.getD "")) "hermes" = true ∧
          (jsIncludes (normalize body.title) "birkin" = true ∨
            jsIncludes (normalize body.title) "kelly" = true)) →
        "birkin" ∈ buildNegativeTerms body ∧ "kelly" ∈ buildNegativeTerms body) ∧
      ((jsIncludes (normalize (body.brand.getD "")) "hermes" = true ∧
          (jsIncludes (normalize body.title) "birkin" = true ∨
            jsIncludes (normalize body.title) "kelly" = true)) →
        "birkin" ∉ buildNegativeTerms body ∧ "kelly" ∉ buildNegativeTerms body)) ∧
    ("birkin" ∈ buildNegativeTerms exLvSpeedy ∧ "kelly" ∈ buildNegativeTerms exLvSpeedy) ∧
    ("birkin" ∉ buildNegativeTerms exHermesBirkin ∧
      "kelly" ∉ buildNegativeTerms exHermesBirkin) := by
  refine ⟨?_, by decide, by decide⟩
  intro body
  constructor
  · intro hnot
    have hcond : (jsIncludes (normalize (body.brand.getD "")) "hermes" &&
        (jsIncludes (normalize body.title) "birkin" ||
          jsIncludes (normalize body.title) "kelly")) = false := by
      cases hB : jsIncludes (normalize (body.brand.getD "")) "hermes" with
      | false => simp [hB]
      | true =>
        cases h1 : jsIncludes (normalize body.title) "birkin" with
        | true => exact absurd ⟨hB, Or.inl h1⟩ hnot
        | false =>
          cases h2 : jsIncludes (normalize body.title) "kelly" with
          | true => exact absurd ⟨hB, Or.inr h2⟩ hnot
          | false => simp [hB, h1, h2]
    rw [buildNegativeTerms]
    simp only [hcond]
    constructor <;> simp
  · intro hcond
    have hcondT : (jsIncludes (normalize (body.brand.getD "")) "hermes" &&
        (jsIncludes (normalize body.title) "birkin" ||
          jsIncludes (normalize body.title) "kelly")) = true := by
      rcases hcond with ⟨hb, h1 | h1⟩ <;> simp [hb, h1]
    rw [buildNegativeTerms]
    simp only [hcondT]
    constructor <;>
      · intro hmem
        simp only [Bool.not_true, Bool.false_eq_true, if_false, List.nil_append] at hmem
        have hmem2 := (List.mem_filter.mp hmem).1
        revert hmem2
        decide

theorem c7_witness :
    "birkin" ∈ buildNegativeTerms exLvSpeedy ∧
    "birkin" ∉ buildNegativeTerms exHermesBirkin := by
  refine ⟨(((c7_negative_terms.1 exLvSpeedy).1 ?_).1), ((c7_negative_terms.1 exHermesBirkin).2 ?_).1⟩
  · decide
  · decide

/-- C1 (amended): the handler synthesizes a single query string and passes
it to both search collaborators; whenever the trimmed query has at most 200
characters (so neither per-collaborator truncation bites differently), the
`keywords` string sent to the completed/sold-listings collaborator is
exactly the `q` string sent to the active-listings collaborator. -/
theorem c1_same_query (body : AnalyzeRequest)
    (h : (jsTrim (buildSearchQuery body)).data.length ≤ 200) :
    soldSearchKeywords (buildSearchQuery body) = activeSearchQ (buildSearchQuery body) := by
  rw [soldSearchKeywords, activeSearchQ, jsSlice, jsSlice,
    List.take_of_length_le h, List.take_of_length_le (h.trans (by norm_num))]

theorem c1_witness :
    (jsTrim (buildSearchQuery exLvSpeedy)).data.length ≤ 200 ∧
    soldSearchKeywords (buildSearchQuery exLvSpeedy) = activeSearchQ (buildSearchQuery exLvSpeedy) :=
  ⟨by decide, c1_same_query exLvSpeedy (by decide)⟩

/-- C1 counterexample: for the Louis Vuitton Speedy example request, the
sold-listings keywords are the same string as the active-listings query and
contain quoting and `-"term"` exclusion syntax — contradicting the claim
that the sold query is plain keywords synthesized independently. -/
theorem c1_counterexample :
    soldSearchKeywords (buildSearchQuery exLvSpeedy) = activeSearchQ (buildSearchQuery exLvSpeedy) ∧
    jsIncludes (soldSearchKeywords (buildSearchQuery exLvSpeedy)) "-\"birkin\"" = true ∧
    jsIncludes (soldSearchKeywords (buildSearchQuery exLvSpeedy)) "\"" = true := by
  refine ⟨?_, ?_, ?_⟩ <;> decide

/-! ### Helper lemmas: idempotence of `normalize` -/

theorem map_fixed {f : Char → Char} {l : List Char} (h : ∀ c ∈ l, f c = c) :
    l.map f = l := by
  induction l with
  | nil => rfl
  | cons c cs ih =>
    rw [List.map_cons, h c (List.mem_cons_self c cs),
      ih (fun d hd => h d (List.mem_cons_of_mem c hd))]

theorem flatMap_fixed {f : Char → List Char} {l : List Char} (h : ∀ c ∈ l, f c = [c]) :
    l.flatMap f = l := by
  induction l with
  | nil => rfl
  | cons c cs ih =>
    rw [List.flatMap_cons, h c (List.mem_cons_self c cs),
      ih (fun d hd => h d (List.mem_cons_of_mem c hd))]
    rfl

/-- Every character produced by the lower-casing plus accent-stripping
stages is a fixed point of both stages. -/
theorem stage_fixed (c : Char) :
    ∀ d ∈ accentFold (jsToLowerChar c), jsToLowerChar d = d ∧ accentFold d = [d] := by
  intro d hd
  rcases hfind : lowerPairs.find? (fun p => p.1 = c) with _ | pr
  · have hflc : jsToLowerChar c = c := by rw [jsToLowerChar, hfind]
    rw [hflc] at hd
    by_cases hcm : isCombiningMark c = true
    · rw [accentFold, if_pos hcm] at hd
      simp at hd
    · rw [accentFold, if_neg hcm] at hd
      rcases hfind2 : accentPairs.find? (fun p => p.1 = c) with _ | pr2
      · rw [hfind2] at hd
        simp at hd
        subst hd
        exact ⟨hflc, by rw [accentFold, if_neg hcm, hfind2]⟩
      · rw [hfind2] at hd
        simp at hd
        subst hd
        have hmem := List.mem_of_find?_eq_some hfind2
        have hall : ∀ q ∈ accentPairs, jsToLowerChar q.2 = q.2 ∧ accentFold q.2 = [q.2] := by
          decide
        exact hall pr2 hmem
  · have hmem := List.mem_of_find?_eq_some hfind
    have hflc : jsToLowerChar c = pr.2 := by rw [jsToLowerChar, hfind]
    rw [hflc] at hd
    have hall : ∀ q ∈ lowerPairs, ∀ d ∈ accentFold q.2,
        jsToLowerChar d = d ∧ accentFold d = [d] := by decide
    exact hall pr hmem d hd

/-- Characters of a word produced by `wordsOf` are non-whitespace members
of the input. -/
theorem wordsOf_mem {l : List Char} {w : List Char} (hw : w ∈ wordsOf l) :
    w ≠ [] ∧ ∀ c ∈ w, isJsSpace c = false ∧ c ∈ l := by
  have hunfil : w ∈ l.foldr wordsStep [] ∧ w ≠ [] := by
    have := List.mem_filter.mp hw
    exact ⟨this.1, by simpa using this.2⟩
  refine ⟨hunfil.2, ?_⟩
  have main : ∀ (l : List Char) (w : List Char), w ∈ l.foldr wordsStep [] →
      ∀ c ∈ w, isJsSpace c = false ∧ c ∈ l := by
    intro l
    induction l with
    | nil => intro w hw0; simp at hw0
    | cons a as ih =>
      intro w hw0 c hc
      rw [List.foldr_cons, wordsStep] at hw0
      by_cases hsp : isJsSpace a = true
      · rw [if_pos hsp] at hw0
        rcases List.mem_cons.mp hw0 with h1 | h1
        · subst h1; simp at hc
        · have := ih w h1 c hc
          exact ⟨this.1, List.mem_cons_of_mem a this.2⟩
      · rw [if_neg hsp] at hw0
        rcases hfold : as.foldr wordsStep [] with _ | ⟨w0, ws0⟩
        · rw [hfold] at hw0
          simp at hw0
          subst hw0
          simp at hc
          subst hc
          exact ⟨Bool.eq_false_iff.mpr hsp, List.mem_cons_self _ _⟩
        · rw [hfold] at hw0
          rcases List.mem_cons.mp hw0 with h1 | h1
          · subst h1
            rcases List.mem_cons.mp hc with h2 | h2
            · subst h2
              exact ⟨Bool.eq_false_iff.mpr hsp, List.mem_cons_self _ _⟩
            · have := ih w0 (by rw [hfold]; exact List.mem_cons_self _ _) c h2
              exact ⟨this.1, List.mem_cons_of_mem a this.2⟩
          · have := ih w (by rw [hfold]; exact List.mem_cons_of_mem _ h1) c hc
            exact ⟨this.1, List.mem_cons_of_mem a this.2⟩
  exact main l w hunfil.1

theorem joinWords_cons_cons (w w2 : List Char) (ws : List (List Char)) :
    joinWords (w :: w2 :: ws) = w ++ ' ' :: joinWords (w2 :: ws) := rfl

/-- Characters of `joinWords` are the joining spaces plus word characters. -/
theorem joinWords_mem {ws : List (List Char)} {c : Char} (hc : c ∈ joinWords ws) :
    c = ' ' ∨ ∃ w ∈ ws, c ∈ w := by
  induction ws with
  | nil => simp [joinWords] at hc
  | cons w ws ih =>
    rcases ws with _ | ⟨w2, ws2⟩
    · exact Or.inr ⟨w, List.mem_cons_self _ _, hc⟩
    · rw [joinWords_cons_cons] at hc
      rcases List.mem_append.mp hc with h1 | h1
      · exact Or.inr ⟨w, List.mem_cons_self _ _, h1⟩
      · rcases List.mem_cons.mp h1 with h2 | h2
        · exact Or.inl h2
        · rcases ih h2 with h3 | ⟨w3, hw3, hc3⟩
          · exact Or.inl h3
          · exact Or.inr ⟨w3, List.mem_cons_of_mem _ hw3, hc3⟩

theorem foldr_wordsStep_word {w : List Char} (R : List (List Char)) (hne : w ≠ [])
    (hsp : ∀ c ∈ w, isJsSpace c = false) :
    w.foldr wordsStep ([] :: R) = w :: R := by
  induction w with
  | nil => exact absurd rfl hne
  | cons a w ih =>
    rw [List.foldr_cons]
    rcases w with _ | ⟨b, w2⟩
    · rw [List.foldr_nil, wordsStep,
        if_neg (by simp [hsp a (List.mem_cons_self _ _)])]
      rfl
    · rw [ih (by simp) (fun d hd => hsp d (List.mem_cons_of_mem a hd)), wordsStep,
        if_neg (by simp [hsp a (List.mem_cons_self _ _)])]
      rfl

theorem foldr_wordsStep_single {w : List Char} (hne : w ≠ [])
    (hsp : ∀ c ∈ w, isJsSpace c = false) :
    w.foldr wordsStep [] = [w] := by
  induction w with
  | nil => exact absurd rfl hne
  | cons a w ih =>
    rw [List.foldr_cons]
    rcases w with _ | ⟨b, w2⟩
    · rw [List.foldr_nil, wordsStep,
        if_neg (by simp [hsp a (List.mem_cons_self _ _)])]
      rfl
    · rw [ih (by simp) (fun d hd => hsp d (List.mem_cons_of_mem a hd)), wordsStep,
        if_neg (by simp [hsp a (List.mem_cons_self _ _)])]
      rfl

/-- Splitting undoes joining for nonempty whitespace-free words. -/
theorem wordsOf_joinWords {ws : List (List Char)}
    (hgood : ∀ w ∈ ws, w ≠ [] ∧ ∀ c ∈ w, isJsSpace c = false) :
    wordsOf (joinWords ws) = ws := by
  have main : (joinWords ws).foldr wordsStep [] = ws := by
    induction ws with
    | nil => rfl
    | cons w ws ih =>
      rcases ws with _ | ⟨w2, ws2⟩
      · exact foldr_wordsStep_single (hgood w (List.mem_cons_self _ _)).1
          (hgood w (List.mem_cons_self _ _)).2
      · rw [joinWords_cons_cons, List.foldr_append, List.foldr_cons,
          ih (fun u hu => hgood u (List.mem_cons_of_mem _ hu))]
        rw [show wordsStep ' ' (w2 :: ws2) = [] :: w2 :: ws2 from by
          rw [wordsStep, if_pos (by decide)]]
        exact foldr_wordsStep_word _ (hgood w (List.mem_cons_self _ _)).1
          (hgood w (List.mem_cons_self _ _)).2
  rw [wordsOf, main, List.filter_eq_self.mpr]
  intro w hw
  simpa using (hgood w hw).1

/-- Idempotence of `normalizeList`. -/
theorem normalizeList_idem (l : List Char) :
    normalizeList (normalizeList l) = normalizeList l := by
  set P := (((l.map jsToLowerChar).flatMap accentFold).map punctToSpace) with hP
  have hPchars : ∀ c ∈ P,
      jsToLowerChar c = c ∧ accentFold c = [c] ∧
        (isWordChar c || isJsSpace c || c = '-') = true := by
    intro c hc
    rcases List.mem_map.mp hc with ⟨c1, hc1, hc1eq⟩
    rcases List.mem_flatMap.mp hc1 with ⟨c2, hc2, hc2mem⟩
    rcases List.mem_map.mp hc2 with ⟨c0, _, hc0eq⟩
    subst hc0eq
    have hfix := stage_fixed c0 c1 hc2mem
    subst hc1eq
    rw [punctToSpace]
    by_cases hcond : (isWordChar c1 || isJsSpace c1 || c1 = '-') = true
    · rw [if_pos hcond]
      exact ⟨hfix.1, hfix.2, hcond⟩
    · rw [if_neg hcond]
      refine ⟨by decide, by decide, by decide⟩
  set ws := wordsOf P with hws
  have hgood : ∀ w ∈ ws, w ≠ [] ∧ ∀ c ∈ w, isJsSpace c = false :=
    fun w hw => ⟨(wordsOf_mem hw).1, fun c hc => ((wordsOf_mem hw).2 c hc).1⟩
  have hrchars : ∀ c ∈ joinWords ws,
      jsToLowerChar c = c ∧ accentFold c = [c] ∧
        (isWordChar c || isJsSpace c || c = '-') = true := by
    intro c hc
    rcases joinWords_mem hc with h1 | ⟨w, hw, hcw⟩
    · subst h1
      refine ⟨by decide, by decide, by decide⟩
    · exact hPchars c ((wordsOf_mem hw).2 c hcw).2
  have hnorm : normalizeList l = joinWords ws := rfl
  rw [hnorm, normalizeList,
    map_fixed (fun c hc => (hrchars c hc).1),
    flatMap_fixed (fun c hc => (hrchars c hc).2.1),
    map_fixed (fun c hc => by rw [punctToSpace, if_pos (hrchars c hc).2.2]),
    wordsOf_joinWords hgood]

/-- C9: `normalize` is idempotent, and is insensitive to accent-only
variation: `normalize "Hermès" = normalize "Hermes"`. -/
theorem c9_normalize_idempotent :
    (∀ s : String, normalize (normalize s) = normalize s) ∧
    normalize "Hermès" = normalize "Hermes" := by
  constructor
  · intro s
    exact congrArg String.mk (normalizeList_idem s.data)
  · decide

/-! ### Helper lemmas: the ranked list (stable descending sort, bounds) -/

theorem insertDesc_perm (x : ScoredComp) (l : List ScoredComp) :
    (insertDesc x l).Perm (x :: l) := by
  induction l with
  | nil => exact List.Perm.refl _
  | cons y ys ih =>
    rw [insertDesc]
    by_cases h : y.qualityScore < x.qualityScore
    · rw [if_pos h]
    · rw [if_neg h]
      exact (List.Perm.cons y ih).trans (List.Perm.swap x y ys)

theorem foldl_insertDesc_perm (l : List ScoredComp) :
    ∀ acc : List ScoredComp, (l.foldl (fun a x => insertDesc x a) acc).Perm (acc ++ l) := by
  induction l with
  | nil => intro acc; simp
  | cons x xs ih =>
    intro acc
    rw [List.foldl_cons]
    refine (ih (insertDesc x acc)).trans ?_
    refine (List.Perm.append_right xs (insertDesc_perm x acc)).trans ?_
    exact (List.perm_middle).symm

theorem sortByScoreDesc_perm (l : List ScoredComp) : (sortByScoreDesc l).Perm l := by
  simpa using foldl_insertDesc_perm l []

theorem insertDesc_sorted {l : List ScoredComp} (x : ScoredComp)
    (hs : List.Sorted (fun a b : ScoredComp => b.qualityScore ≤ a.qualityScore) l) :
    List.Sorted (fun a b : ScoredComp => b.qualityScore ≤ a.qualityScore) (insertDesc x l) := by
  induction l with
  | nil => simp [insertDesc]
  | cons y ys ih =>
    rw [insertDesc]
    rw [List.sorted_cons] at hs
    by_cases h : y.qualityScore < x.qualityScore
    · rw [if_pos h]
      rw [List.sorted_cons]
      refine ⟨?_, List.sorted_cons.mpr hs⟩
      intro b hb
      rcases List.mem_cons.mp hb with h1 | h1
      · subst h1; exact le_of_lt h
      · exact (hs.1 b h1).trans (le_of_lt h)
    · rw [if_neg h]
      rw [List.sorted_cons]
      refine ⟨?_, ih hs.2⟩
      intro b hb
      have hb2 := (insertDesc_perm x ys).mem_iff.mp hb
      rcases List.mem_cons.mp hb2 with h1 | h1
      · subst h1; exact le_of_not_lt h
      · exact hs.1 b h1

theorem foldl_insertDesc_sorted (l : List ScoredComp) :
    ∀ acc : List ScoredComp,
      List.Sorted (fun a b : ScoredComp => b.qualityScore ≤ a.qualityScore) acc →
      List.Sorted (fun a b : ScoredComp => b.qualityScore ≤ a.qualityScore)
        (l.foldl (fun a x => insertDesc x a) acc) := by
  induction l with
  | nil => intro acc h; exact h
  | cons x xs ih =>
    intro acc h
    rw [List.foldl_cons]
    exact ih _ (insertDesc_sorted x h)

theorem sortByScoreDesc_sorted (l : List ScoredComp) :
    List.Sorted (fun a b : ScoredComp => b.qualityScore ≤ a.qualityScore) (sortByScoreDesc l) :=
  foldl_insertDesc_sorted l [] (by simp)

theorem insertDesc_filter_score {l : List ScoredComp} (x : ScoredComp) (s : ℤ)
    (hs : List.Sorted (fun a b : ScoredComp => b.qualityScore ≤ a.qualityScore) l) :
    (insertDesc x l).filter (fun c => c.qualityScore = s) =
      l.filter (fun c => c.qualityScore = s) ++
        (if x.qualityScore = s then [x] else []) := by
  induction l with
  | nil =>
    rw [insertDesc]
    by_cases hxs : x.qualityScore = s
    · simp [hxs]
    · simp [hxs]
  | cons y ys ih =>
    rw [List.sorted_cons] at hs
    rw [insertDesc]
    by_cases h : y.qualityScore < x.qualityScore
    · rw [if_pos h]
      by_cases hxs : x.qualityScore = s
      · have hnil : (y :: ys).filter (fun c => c.qualityScore = s) = [] := by
          rw [List.filter_eq_nil_iff]
          intro b hb
          simp only [decide_eq_true_eq]
          rcases List.mem_cons.mp hb with h1 | h1
          · subst h1; omega
          · have := hs.1 b h1; omega
        rw [List.filter_cons_of_pos (by simpa using hxs), hnil, if_pos hxs]
        simp
      · rw [List.filter_cons_of_neg (by simpa using hxs), if_neg hxs]
        simp
    · rw [if_neg h]
      by_cases hys : y.qualityScore = s
      · rw [List.filter_cons_of_pos (by simpa using hys),
          List.filter_cons_of_pos (by simpa using hys), ih hs.2]
        simp
      · rw [List.filter_cons_of_neg (by simpa using hys),
          List.filter_cons_of_neg (by simpa using hys), ih hs.2]

theorem foldl_insertDesc_filter_score (l : List ScoredComp) (s : ℤ) :
    ∀ acc : List ScoredComp,
      List.Sorted (fun a b : ScoredComp => b.qualityScore ≤ a.qualityScore) acc →
      (l.foldl (fun a x => insertDesc x a) acc).filter (fun c => c.qualityScore = s) =
        acc.filter (fun c => c.qualityScore = s) ++ l.filter (fun c => c.qualityScore = s) := by
  induction l with
  | nil => intro acc _; simp
  | cons x xs ih =>
    intro acc hacc
    rw [List.foldl_cons, ih _ (insertDesc_sorted x hacc), insertDesc_filter_score x s hacc]
    by_cases hxs : x.qualityScore = s
    · rw [List.filter_cons_of_pos (by simpa using hxs)]
      simp [hxs]
    · rw [List.filter_cons_of_neg (by simpa using hxs)]
      simp [hxs]

/-- Stability: sorting preserves the input order of equal scores. -/
theorem sortByScoreDesc_filter_score (l : List ScoredComp) (s : ℤ) :
    (sortByScoreDesc l).filter (fun c => c.qualityScore = s) =
      l.filter (fun c => c.qualityScore = s) := by
  simpa using foldl_insertDesc_filter_score l s [] (by simp)

/-- A comp accepted by the scorer has a clamped score in `[45, 100]`. -/
theorem scoredOf_score_clamped (target : TargetSignals) (c : Comp) :
    ∃ n : ℤ, (scoredOf target c).qualityScore = clampInt n 0 100 :=
  ⟨_, rfl⟩

theorem scoreComp_some_bounds {target : TargetSignals} {c : Comp} {sc : ScoredComp}
    (h : scoreComp target c = some sc) :
    45 ≤ sc.qualityScore ∧ sc.qualityScore ≤ 100 := by
  rw [scoreComp] at h
  split at h
  · exact absurd h (by simp)
  · split at h
    · exact absurd h (by simp)
    · split at h
      · exact absurd h (by simp)
      · split at h
        · exact absurd h (by simp)
        · rename_i hcut
          have hsc : sc = scoredOf target c := (Option.some.injEq _ _).mp h.symm
          obtain ⟨n, hn⟩ := scoredOf_score_clamped target c
          subst hsc
          rw [hn] at hcut ⊢
          rw [clampInt] at hcut ⊢
          constructor
          · omega
          · exact max_le (by norm_num) (min_le_left _ _)

/-- C2: every kept comp carries an integer quality score in `[45, 100]`;
the ranked list is sorted by descending score with ties kept in input
order; the used-for-stats subset is the comps scoring ≥ 60 when at least 4
such comps exist, otherwise all survivors, truncated to at most 10. -/
theorem c2_rank_invariants (body : AnalyzeRequest) (compsIn : List Comp) :
    (∀ sc ∈ (rankAndFilterComps body compsIn).ranked,
      45 ≤ sc.qualityScore ∧ sc.qualityScore ≤ 100) ∧
    List.Sorted (fun a b : ScoredComp => b.qualityScore ≤ a.qualityScore)
      (rankAndFilterComps body compsIn).ranked ∧
    (∀ s : ℤ,
      (rankAndFilterComps body compsIn).ranked.filter (fun c => c.qualityScore = s) =
        (keptComps (buildTargetSignals body) compsIn).filter (fun c => c.qualityScore = s)) ∧
    (rankAndFilterComps body compsIn).usedForStats =
      (if 4 ≤ ((rankAndFilterComps body compsIn).ranked.filter
            (fun c => 60 ≤ c.qualityScore)).length
        then (rankAndFilterComps body compsIn).ranked.filter (fun c => 60 ≤ c.qualityScore)
        else (rankAndFilterComps body compsIn).ranked).take 10 ∧
    (rankAndFilterComps body compsIn).usedForStats.length ≤ 10 := by
  have hranked : (rankAndFilterComps body compsIn).ranked =
      sortByScoreDesc (keptComps (buildTargetSignals body) compsIn) := rfl
  refine ⟨?_, ?_, ?_, rfl, ?_⟩
  · intro sc hmem
    rw [hranked] at hmem
    have hmem2 := (sortByScoreDesc_perm _).mem_iff.mp hmem
    rcases List.mem_filterMap.mp hmem2 with ⟨c, _, hc⟩
    exact scoreComp_some_bounds hc
  · rw [hranked]
    exact sortByScoreDesc_sorted _
  · intro s
    rw [hranked]
    exact sortByScoreDesc_filter_score _ s
  · exact List.length_take_le _ _

theorem c2_witness :
    (rankAndFilterComps exLvSpeedy []).usedForStats.length ≤ 10 ∧
    List.Sorted (fun a b : ScoredComp => b.qualityScore ≤ a.qualityScore)
      (rankAndFilterComps exLvSpeedy []).ranked :=
  ⟨(c2_rank_invariants exLvSpeedy []).2.2.2.2, (c2_rank_invariants exLvSpeedy []).2.1⟩

/-! ### Helper lemmas: the sold-comps window loop -/

/-- A collaborator failure behaves exactly like a success with zero comps. -/
theorem soldLoopGo_failure_eq (o : ℕ → Option (List Comp)) (ws : List ℕ) :
    ∀ st : SoldState,
      soldLoopGo o ws st = soldLoopGo (fun w => some ((o w).getD [])) ws st := by
  induction ws with
  | nil => intro st; rfl
  | cons d rest ih =>
    intro st
    rw [soldLoopGo, soldLoopGo]
    rcases hod : o d with _ | sold
    · simp only [hod, Option.getD, List.length_nil]
      rw [if_neg (Nat.not_lt_zero _), if_neg (by decide), if_neg (Nat.not_lt_zero _)]
      exact ih st
    · simp only [hod, Option.getD]
      by_cases hm : minSoldForStrong ≤ sold.length
      · rw [if_pos hm, if_pos hm]
      · rw [if_neg hm, if_neg hm]
        exact ih _

/-- Characterization of the sold loop for a total oracle: break at the
first window meeting the minimum, otherwise a strict-improvement fold. -/
theorem soldLoopGo_total_char (f : ℕ → List Comp) (ws : List ℕ) :
    ∀ st : SoldState, st.bestSoldCount = st.soldAll.length →
      ((soldLoopGo (fun w => some (f w)) ws st).soldAll,
        (soldLoopGo (fun w => some (f w)) ws st).soldWindowDays) =
        (match ws.find? (fun d => decide (minSoldForStrong ≤ (f d).length)) with
        | some d => (f d, some d)
        | none =>
          ws.foldl (fun cur d => if cur.1.length < (f d).length then (f d, some d) else cur)
            (st.soldAll, st.soldWindowDays)) := by
  induction ws with
  | nil => intro st _; rfl
  | cons d rest ih =>
    intro st hinv
    by_cases hb : minSoldForStrong ≤ (f d).length
    · rw [List.find?_cons_of_pos _ (by simpa using hb)]
      simp only [soldLoopGo]
      rw [if_pos hb]
    · rw [List.find?_cons_of_neg _ (by simpa using hb), List.foldl_cons]
      have hlen : st.bestSoldCount = st.soldAll.length := hinv
      by_cases hlt : st.bestSoldCount < (f d).length
      · have hlt2 : st.soldAll.length < (f d).length := hlen ▸ hlt
        have hstep : soldLoopGo (fun w => some (f w)) (d :: rest) st =
            soldLoopGo (fun w => some (f w)) rest
              ⟨f d, some d, (f d).length, some d⟩ := by
          simp only [soldLoopGo]
          rw [if_pos hlt, if_neg hb]
          congr 1
          rw [if_pos (show (SoldState.mk st.soldAll st.soldWindowDays (f d).length
            (some d)).soldAll.length < (f d).length from hlt2)]
        rw [hstep, ih ⟨f d, some d, (f d).length, some d⟩ rfl,
          if_pos (show (st.soldAll, st.soldWindowDays).1.length < (f d).length from hlt2)]
      · have hlt2 : ¬ st.soldAll.length < (f d).length := hlen ▸ hlt
        have hstep : soldLoopGo (fun w => some (f w)) (d :: rest) st =
            soldLoopGo (fun w => some (f w)) rest st := by
          simp only [soldLoopGo]
          rw [if_neg hlt, if_neg hb]
          congr 1
          rw [if_neg (show ¬ st.soldAll.length < (f d).length from hlt2)]
        rw [hstep, ih st hinv,
          if_neg (show ¬ (st.soldAll, st.soldWindowDays).1.length < (f d).length from hlt2)]

/-- The strict-improvement fold over the three windows picks the earliest
attempt with the most comps (and no window at all when every attempt is
empty). -/
theorem foldl_upd_spec (f : ℕ → List Comp) :
    (soldWindows.foldl
      (fun cur d => if cur.1.length < (f d).length then (f d, some d) else cur)
      (([] : List Comp), (none : Option ℕ))) =
    (if ((soldWindows.map (fun d => (f d).length)).foldr max 0) = 0 then ([], none)
     else
       match soldWindows.find?
           (fun d => decide ((f d).length =
             ((soldWindows.map (fun d => (f d).length)).foldr max 0))) with
       | some d => (f d, some d)
       | none => ([], none)) := by
  simp only [soldWindows, List.foldl_cons, List.foldl_nil, List.map_cons, List.map_nil,
    List.foldr_cons, List.foldr_nil, List.length_nil, List.find?]
  by_cases h1 : 0 < (f 90).length
  · rw [if_pos h1]
    by_cases h12 : (f 90).length < (f 180).length
    · rw [if_pos h12]
      by_cases h23 : (f 180).length < (f 365).length
      · rw [if_pos h23, if_neg (by omega),
          show (decide ((f 90).length = max (f 90).length (max (f 180).length
            (max (f 365).length 0)))) = false from by simp; omega,
          show (decide ((f 180).length = max (f 90).length (max (f 180).length
            (max (f 365).length 0)))) = false from by simp; omega,
          show (decide ((f 365).length = max (f 90).length (max (f 180).length
            (max (f 365).length 0)))) = true from by simp; omega]
      · rw [if_neg h23, if_neg (by omega),
          show (decide ((f 90).length = max (f 90).length (max (f 180).length
            (max (f 365).length 0)))) = false from by simp; omega,
          show (decide ((f 180).length = max (f 90).length (max (f 180).length
            (max (f 365).length 0)))) = true from by simp; omega]
    · rw [if_neg h12]
      by_cases h13 : (f 90).length < (f 365).length
      · rw [if_pos h13, if_neg (by omega),
          show (decide ((f 90).length = max (f 90).length (max (f 180).length
            (max (f 365).length 0)))) = false from by simp; omega,
          show (decide ((f 180).length = max (f 90).length (max (f 180).length
            (max (f 365).length 0)))) = false from by simp; omega,
          show (decide ((f 365).length = max (f 90).length (max (f 180).length
            (max (f 365).length 0)))) = true from by simp; omega]
      · rw [if_neg h13, if_neg (by omega),
          show (decide ((f 90).length = max (f 90).length (max (f 180).length
            (max (f 365).length 0)))) = true from by simp; omega]
  · rw [if_neg h1]
    simp only [List.length_nil]
    by_cases h2 : 0 < (f 180).length
    · rw [if_pos h2]
      by_cases h23 : (f 180).length < (f 365).length
      · rw [if_pos h23, if_neg (by omega),
          show (decide ((f 90).length = max (f 90).length (max (f 180).length
            (max (f 365).length 0)))) = false from by simp; omega,
          show (decide ((f 180).length = max (f 90).length (max (f 180).length
            (max (f 365).length 0)))) = false from by simp; omega,
          show (decide ((f 365).length = max (f 90).length (max (f 180).length
            (max (f 365).length 0)))) = true from by simp; omega]
      · rw [if_neg h23, if_neg (by omega),
          show (decide ((f 90).length = max (f 90).length (max (f 180).length
            (max (f 365).length 0)))) = false from by simp; omega,
          show (decide ((f 180).length = max (f 90).length (max (f 180).length
            (max (f 365).length 0)))) = true from by simp; omega]
    · rw [if_neg h2]
      simp only [List.length_nil]
      by_cases h3 : 0 < (f 365).length
      · rw [if_pos h3, if_neg (by omega),
          show (decide ((f 90).length = max (f 90).length (max (f 180).length
            (max (f 365).length 0)))) = false from by simp; omega,
          show (decide ((f 180).length = max (f 90).length (max (f 180).length
            (max (f 365).length 0)))) = false from by simp; omega,
          show (decide ((f 365).length = max (f 90).length (max (f 180).length
            (max (f 365).length 0)))) = true from by simp; omega]
      · rw [if_neg h3, if_pos (by omega)]

/-- C3: the sold-comps fetch tries the windows 90, 180, 365 in that order,
returns the first attempt with at least 12 comps (stopping there), keeps
the attempt with the most comps (recording its window) when no attempt
reaches 12, and treats a collaborator failure on a window exactly like a
success with zero comps — the loop is total, so a failure never aborts the
analysis. -/
theorem c3_sold_window_loop (o : ℕ → Option (List Comp)) :
    ((soldLoop o).soldAll, (soldLoop o).soldWindowDays) = soldSelectSpec o ∧
    soldLoop o = soldLoop (fun w => some ((o w).getD [])) := by
  have hfail : soldLoop o = soldLoop (fun w => some ((o w).getD [])) :=
    soldLoopGo_failure_eq o soldWindows ⟨[], none, 0, none⟩
  refine ⟨?_, hfail⟩
  rw [hfail, soldLoop]
  have hchar := soldLoopGo_total_char (fun w => (o w).getD []) soldWindows
    ⟨[], none, 0, none⟩ rfl
  rw [hchar]
  simp only [soldSelectSpec]
  rcases hfind : soldWindows.find?
      (fun d => decide (minSoldForStrong ≤ ((o d).getD []).length)) with _ | d
  · exact foldl_upd_spec (fun w => (o w).getD [])
  · rfl

theorem findSome?_map {α β γ : Type} (g : α → β) (f : β → Option γ) (l : List α) :
    (l.map g).findSome? f = l.findSome? (fun a => f (g a)) := by
  induction l with
  | nil => rfl
  | cons x xs ih => simp only [List.map_cons, List.findSome?_cons, ih]

theorem findSome?_range_first {α : Type} :
    ∀ (n : ℕ) (f : ℕ → Option α) (v : α),
      (List.range n).findSome? f = some v →
      ∃ i, i < n ∧ f i = some v ∧ ∀ j, j < i → f j = none := by
  intro n
  induction n with
  | zero => intro f v h; simp [List.findSome?] at h
  | succ n ih =>
    intro f v h
    rw [List.range_succ_eq_map] at h
    cases hf0 : f 0 with
    | some w =>
      simp only [List.findSome?_cons, hf0] at h
      exact ⟨0, Nat.succ_pos n, by rw [hf0, h], fun j hj => absurd hj (Nat.not_lt_zero j)⟩
    | none =>
      simp only [List.findSome?_cons, hf0, findSome?_map] at h
      obtain ⟨i, hin, hfi, hprev⟩ := ih (fun a => f (Nat.succ a)) v h
      refine ⟨i + 1, by omega, hfi, ?_⟩
      intro j hj
      cases j with
      | zero => exact hf0
      | succ k => exact hprev k (by omega)

/-- C8: size extraction returns `none` or a member of the fixed allow-list;
at most one size is returned and the leftmost whole-word match wins; the
usual examples extract `"30"`. -/
theorem c8_size_extraction (title : String) :
    (∀ s, extractSizeToken title = some s →
      s ∈ ALLOWED_SIZES ∧
      ∃ i, sizeMatchAt (normalize title).data i = some s ∧
        ∀ j, j < i → sizeMatchAt (normalize title).data j = none) ∧
    extractSizeToken "Birkin 30 Togo" = some "30" ∧
    extractSizeToken "Birkin 30 cm Togo" = some "30" := by
  refine ⟨?_, by decide, by decide⟩
  intro s hs
  rw [extractSizeToken] at hs
  obtain ⟨i, _, hfi, hprev⟩ := findSome?_range_first _ _ _ hs
  refine ⟨?_, i, hfi, hprev⟩
  rw [sizeMatchAt] at hfi
  exact List.mem_of_find?_eq_some hfi

/-- C8 counterexample: a directly attached "cm" defeats the `\b` that the
regex places right after the digits, so "Birkin 30cm Togo" yields no size
at all — the trailing "cm" is tolerated only when whitespace-separated. -/
theorem c8_cm_counterexample : extractSizeToken "Birkin 30cm Togo" = none := by decide

theorem c8_witness :
    "30" ∈ ALLOWED_SIZES ∧
    ∃ i, sizeMatchAt (normalize "Birkin 30 Togo").data i = some "30" ∧
      ∀ j, j < i → sizeMatchAt (normalize "Birkin 30 Togo").data j = none :=
  ⟨((c8_size_extraction "Birkin 30 Togo").1 "30" (by decide)).1,
   ((c8_size_extraction "Birkin 30 Togo").1 "30" (by decide)).2⟩

/-- Validation passing, the handler returns an `ok` payload built from the
ranked sold comps of the window loop. -/
theorem handlerCore_ok (body : AnalyzeRequest) (activeRes : Option (List Comp))
    (soldOracle : ℕ → Option (List Comp))
    (hsrc : body.source = "ebay") (htitle : body.title ≠ "")
    (hcur : body.price.currency ≠ "")
    (hbag : looksLikeBag (jsToLowerString
      (body.title ++ " " ++ body.categoryHint.getD "" ++ " " ++ body.brand.getD "")) = true) :
    handlerCore body activeRes soldOracle =
      .ok (buildPayload body (buildSearchQuery body) (handlerActiveMed body activeRes)
        (rankAndFilterComps body (soldLoop soldOracle).soldAll)
        (soldLoop soldOracle).soldWindowDays (soldLoop soldOracle).bestSoldWindow) := by
  simp only [handlerCore]
  rw [if_neg (by simp [hsrc]), if_neg (not_or.mpr ⟨htitle, hcur⟩),
    if_neg (not_not_intro hbag)]

/-- The heuristic branch of the payload builder, written out. -/
theorem buildPayload_limited (body : AnalyzeRequest) (query : String) (activeMed : Option ℚ)
    (soldRanked : RankResult) (w bw : Option ℕ)
    (hfew : soldRanked.usedForStats.length < 4) :
    buildPayload body query activeMed soldRanked w bw =
      { deal := ⟨dealLabelFromR (jsDiv body.price.amount (body.price.amount * (93 / 100))),
          if jsLe (jsDiv body.price.amount (body.price.amount * (93 / 100))) (95 / 100) then 74
          else if jsLe (jsDiv body.price.amount (body.price.amount * (93 / 100))) (105 / 100)
          then 62
          else 54⟩
        estimate :=
          { marketValue := ⟨round (body.price.amount * (93 / 100)), body.price.currency⟩
            low := ⟨round (body.price.amount * (84 / 100)), body.price.currency⟩
            high := ⟨round (body.price.amount * (102 / 100)), body.price.currency⟩
            confidence := .limited
            method := "limited-sold-signals" }
        resalePotentialValue :=
          activeMed.map (fun m => RoundedMoney.mk (round m) body.price.currency)
        soldDaysWindow := w.orElse (fun _ => bw)
        query := query } := by
  simp only [buildPayload]
  rw [if_neg (by omega)]

/-- C4: with fewer than 4 stat-eligible sold comps, the analysis still
succeeds (an `ok` payload, never an error) and returns the heuristic
estimate: point = round(asking·0.93), low = round(asking·0.84),
high = round(asking·1.02), in the asking currency, with confidence
`limited`. -/
theorem c4_heuristic_fallback (body : AnalyzeRequest) (activeRes : Option (List Comp))
    (soldOracle : ℕ → Option (List Comp))
    (hsrc : body.source = "ebay") (htitle : body.title ≠ "")
    (hcur : body.price.currency ≠ "")
    (hbag : looksLikeBag (jsToLowerString
      (body.title ++ " " ++ body.categoryHint.getD "" ++ " " ++ body.brand.getD "")) = true)
    (hfew : (rankAndFilterComps body (soldLoop soldOracle).soldAll).usedForStats.length < 4) :
    ∃ p : Payload,
      handlerCore body activeRes soldOracle = .ok p ∧
      p.estimate.marketValue = ⟨round (body.price.amount * (93 / 100)), body.price.currency⟩ ∧
      p.estimate.low = ⟨round (body.price.amount * (84 / 100)), body.price.currency⟩ ∧
      p.estimate.high = ⟨round (body.price.amount * (102 / 100)), body.price.currency⟩ ∧
      p.estimate.confidence = .limited ∧
      p.estimate.method = "limited-sold-signals" := by
  rw [handlerCore_ok body activeRes soldOracle hsrc htitle hcur hbag,
    buildPayload_limited _ _ _ _ _ _ hfew]
  exact ⟨_, rfl, rfl, rfl, rfl, rfl, rfl⟩

theorem c4_witness :
    (rankAndFilterComps exNeverfull (soldLoop (fun _ => none)).soldAll).usedForStats.length < 4 ∧
    ∃ p : Payload,
      handlerCore exNeverfull none (fun _ => none) = .ok p ∧
      p.estimate.marketValue = ⟨744, "USD"⟩ ∧
      p.estimate.low = ⟨672, "USD"⟩ ∧
      p.estimate.high = ⟨816, "USD"⟩ ∧
      p.estimate.confidence = .limited := by
  obtain ⟨p, hok, hmv, hlow, hhigh, hconf, _⟩ :=
    c4_heuristic_fallback exNeverfull none (fun _ => none)
      (by decide) (by decide) (by decide) (by decide) (by decide)
  refine ⟨by decide, p, hok, ?_, ?_, ?_, hconf⟩
  · rw [hmv]
    norm_num [exNeverfull, round_eq]
  · rw [hlow]
    norm_num [exNeverfull, round_eq]
  · rw [hhigh]
    norm_num [exNeverfull, round_eq]

/-- C10: on the heuristic fallback branch with a positive asking price, the
ratio is asking ÷ (asking·0.93) = 100/93 > 1.05 regardless of the price, so
the deal label is always `overpriced` and the deal score is always 54. -/
theorem c10_fallback_overpriced (body : AnalyzeRequest) (activeRes : Option (List Comp))
    (soldOracle : ℕ → Option (List Comp))
    (hsrc : body.source = "ebay") (htitle : body.title ≠ "")
    (hcur : body.price.currency ≠ "")
    (hbag : looksLikeBag (jsToLowerString
      (body.title ++ " " ++ body.categoryHint.getD "" ++ " " ++ body.brand.getD "")) = true)
    (hfew : (rankAndFilterComps body (soldLoop soldOracle).soldAll).usedForStats.length < 4)
    (hpos : 0 < body.price.amount) :
    ∃ p : Payload,
      handlerCore body activeRes soldOracle = .ok p ∧
      p.deal.label = .overpriced ∧
      p.deal.score = 54 := by
  have hestpos : (0 : ℚ) < body.price.amount * (93 / 100) :=
    mul_pos hpos (by norm_num)
  have hratio : body.price.amount / (body.price.amount * (93 / 100)) = 100 / 93 := by
    rw [div_eq_iff (ne_of_gt hestpos)]
    ring
  have hdiv : jsDiv body.price.amount (body.price.amount * (93 / 100)) =
      .num (100 / 93) := by
    rw [jsDiv, if_neg (ne_of_gt hestpos), hratio]
  have hlabel : dealLabelFromR (JSNum.num (100 / 93)) = DealLabel.overpriced := by
    simp only [dealLabelFromR]
    norm_num
  have hscore : (if jsLe (JSNum.num (100 / 93)) (95 / 100) = true then (74 : ℤ)
      else if jsLe (JSNum.num (100 / 93)) (105 / 100) = true then 62 else 54) = 54 := by
    simp only [jsLe]
    norm_num
  rw [handlerCore_ok body activeRes soldOracle hsrc htitle hcur hbag,
    buildPayload_limited _ _ _ _ _ _ hfew, hdiv]
  exact ⟨_, rfl, hlabel, hscore⟩

theorem c10_witness :
    (rankAndFilterComps exMarmont (soldLoop (fun _ => none)).soldAll).usedForStats.length < 4 ∧
    0 < exMarmont.price.amount ∧
    ∃ p : Payload,
      handlerCore exMarmont none (fun _ => none) = .ok p ∧
      p.deal.label = .overpriced ∧
      p.deal.score = 54 :=
  ⟨by decide, by decide,
    c10_fallback_overpriced exMarmont none (fun _ => none)
      (by decide) (by decide) (by decide) (by decide) (by decide) (by decide)⟩

end AnalyzeV1
